import Mathlib

/-!
Verification of the wirerust filter engine core against its specification.

This development shallowly embeds the data model, the bytecode compiler
(`src/compiler.rs`), the stack-machine evaluator, the context/schema layer
(`src/context.rs`, `src/schema.rs`, `src/types.rs`), the function registry
(`src/functions.rs`) and the recursive-descent parser (`src/expr.rs`).

Modelling conventions:
- Rust `usize` ids are `Nat`; the sentinel `usize::MAX` is the constant
  `USIZE_MAX = 2^64 - 1`.  The `u8` argument count of `CallFunction` is the
  `as u8` cast, i.e. reduction mod 256, applied at the emission site.
- Byte strings (`Vec<u8>` holding UTF-8 text in every execution path the
  claims touch) are modelled as `String`; positions in the parser are
  character indices (byte and char indices agree on the ASCII inputs of the
  claims).
- `Vec` stacks are `List` with the head as the top of the stack.
- A Rust panic (`Option::unwrap` on `None`, `split_off` out of range) is the
  explicit outcome `StepRes.panic`, distinct from returning an error.
- `HashMap` is an association list with unique keys; insertion overwrites.
- IP addresses are opaque scalars (no claim inspects them).
-/

set_option maxHeartbeats 1000000
set_option maxRecDepth 100000

namespace Wirerust

/-- The value of `usize::MAX` on a 64-bit target, used by the compiler as the
sentinel function id for unknown function names. -/
def USIZE_MAX : Nat := 2 ^ 64 - 1

/-- Model of `std::net::IpAddr`: an opaque scalar with decidable equality. -/
structure IpAddr where
  addr : Nat
deriving DecidableEq

/-- Mirror of `FieldType` in `src/types.rs`. -/
inductive FieldType where
  | bytes
  | int
  | bool
  | ip
  | array (t : FieldType)
  | map (t : FieldType)
  | unknown
deriving DecidableEq

/-- Mirror of `LiteralValue` in `src/types.rs`.  Containers hold plain lists
(the `Arc` sharing is irrelevant to functional behaviour); `Map` is an
association list. -/
inductive LiteralValue where
  | bytes (s : String)
  | int (i : Int)
  | bool (b : Bool)
  | ip (a : IpAddr)
  | array (vs : List LiteralValue)
  | map (m : List (String × LiteralValue))

mutual

/-- Mirror of the `PartialEq` impl for `LiteralValue`: structural, recursive
equality.  (`Map` equality is modelled as ordered association-list equality;
no claim compares maps.) -/
def LiteralValue.beq : LiteralValue → LiteralValue → Bool
  | .bytes a, .bytes b => a == b
  | .int a, .int b => a == b
  | .bool a, .bool b => a == b
  | .ip a, .ip b => a == b
  | .array a, .array b => beqList a b
  | .map a, .map b => beqPairs a b
  | _, _ => false

/-- Elementwise equality of value lists. -/
def beqList : List LiteralValue → List LiteralValue → Bool
  | [], [] => true
  | x :: xs, y :: ys => LiteralValue.beq x y && beqList xs ys
  | _, _ => false

/-- Elementwise equality of keyed value lists. -/
def beqPairs : List (String × LiteralValue) → List (String × LiteralValue) → Bool
  | [], [] => true
  | (k₁, v₁) :: xs, (k₂, v₂) :: ys => k₁ == k₂ && LiteralValue.beq v₁ v₂ && beqPairs xs ys
  | _, _ => false

end

mutual

/-- Mirror of `LiteralValue::get_type_with_hint` in `src/types.rs`. -/
def LiteralValue.get_type_with_hint : LiteralValue → Option FieldType → FieldType
  | .bytes _, _ => .bytes
  | .int _, _ => .int
  | .bool _, _ => .bool
  | .ip _, _ => .ip
  | .array vs, hint =>
    match vs with
    | [] =>
      match hint with
      | some (.array elemTy) => .array elemTy
      | _ => .array .unknown
    | v :: rest =>
      let firstTy := v.get_type_with_hint none
      if allOfType rest firstTy then .array firstTy else .array .unknown
  | .map m, hint =>
    match m with
    | [] =>
      match hint with
      | some (.map valTy) => .map valTy
      | _ => .map .unknown
    | (_, v) :: rest =>
      let firstTy := v.get_type_with_hint none
      if allValuesOfType rest firstTy then .map firstTy else .map .unknown

/-- Whether every element's inferred type equals `t`
(the `vals.iter().all(|v| v.get_type() == first_ty)` check). -/
def allOfType : List LiteralValue → FieldType → Bool
  | [], _ => true
  | v :: vs, t => (v.get_type_with_hint none == t) && allOfType vs t

/-- Whether every map value's inferred type equals `t`. -/
def allValuesOfType : List (String × LiteralValue) → FieldType → Bool
  | [], _ => true
  | (_, v) :: vs, t => (v.get_type_with_hint none == t) && allValuesOfType vs t

end

/-- Mirror of `LiteralValue::get_type` in `src/types.rs`. -/
def LiteralValue.get_type (v : LiteralValue) : FieldType :=
  v.get_type_with_hint none

/-- Mirror of `to_bool` in `src/compiler.rs` (truthiness coercion). -/
def to_bool : LiteralValue → Bool
  | .bool b => b
  | .int i => i != 0
  | .bytes _ => true
  | .array arr => !arr.isEmpty
  | .ip _ => true
  | .map m => !m.isEmpty

/-- Mirror of `WirerustError` in `src/lib.rs`. -/
inductive WirerustError where
  | parseError (msg : String)
  | typeError (msg : String)
  | functionError (msg : String)
  | fieldNotFound (msg : String)
  | executionError (msg : String)
  | other (msg : String)
deriving DecidableEq

/-- Association-list membership test (model of `HashMap::contains_key`). -/
def assocHas {α : Type} (m : List (String × α)) (k : String) : Bool :=
  m.any (fun p => p.1 == k)

/-- Association-list insertion that overwrites (model of `HashMap::insert`). -/
def assocInsert {α : Type} (m : List (String × α)) (k : String) (v : α) :
    List (String × α) :=
  match m with
  | [] => [(k, v)]
  | (k₁, v₁) :: rest =>
    if k₁ == k then (k, v) :: rest else (k₁, v₁) :: assocInsert rest k v

/-- Association-list lookup (model of `HashMap::get`). -/
def assocGet {α : Type} (m : List (String × α)) (k : String) : Option α :=
  match m with
  | [] => none
  | (k₁, v₁) :: rest => if k₁ == k then some v₁ else assocGet rest k

/-- Mirror of `FilterSchema` in `src/schema.rs`. -/
structure FilterSchema where
  fields : List (String × FieldType)
  field_names : List String
  field_ids : List (String × Nat)

/-- Mirror of `FilterSchema::get_field_type`. -/
def FilterSchema.get_field_type (s : FilterSchema) (name : String) : Option FieldType :=
  assocGet s.fields name

/-- Mirror of `FilterSchema::field_id`. -/
def FilterSchema.field_id (s : FilterSchema) (name : String) : Option Nat :=
  assocGet s.field_ids name

/-- Mirror of `FilterSchema::field_name`. -/
def FilterSchema.field_name (s : FilterSchema) (id : Nat) : Option String :=
  s.field_names.get? id

/-- Mirror of `FilterSchema::num_fields`. -/
def FilterSchema.num_fields (s : FilterSchema) : Nat :=
  s.field_names.length

/-- Mirror of `FilterContext` in `src/context.rs`. -/
structure FilterContext where
  field_values : List (Option LiteralValue)

/-- Mirror of `FilterContext::new`. -/
def FilterContext.new : FilterContext := ⟨[]⟩

/-- Mirror of `FilterContext::set_by_id` (resize with `None` padding, then
write the slot). -/
def FilterContext.set_by_id (ctx : FilterContext) (fid : Nat) (v : LiteralValue) :
    FilterContext :=
  let fv :=
    if ctx.field_values.length ≤ fid then
      ctx.field_values ++ List.replicate (fid + 1 - ctx.field_values.length) none
    else
      ctx.field_values
  ⟨fv.set fid (some v)⟩

/-- Mirror of `FilterContext::get_by_id`
(`field_values.get(id).and_then(|v| v.as_ref())`). -/
def FilterContext.get_by_id (ctx : FilterContext) (fid : Nat) : Option LiteralValue :=
  match ctx.field_values.get? fid with
  | some v => v
  | none => none

/-- Mirror of `FunctionRegistry` in `src/functions.rs`.  A callable is a Lean
function from the argument list to an optional result. -/
structure FunctionRegistry where
  functions : List (String × (List LiteralValue → Option LiteralValue))
  function_names : List String
  function_ids : List (String × Nat)

/-- Mirror of `FunctionRegistry::new`. -/
def FunctionRegistry.new : FunctionRegistry := ⟨[], [], []⟩

/-- Mirror of `FunctionRegistry::register`: assign the next dense id if the
name is new, then store the callable (overwriting any previous one). -/
def FunctionRegistry.register (reg : FunctionRegistry) (name : String)
    (f : List LiteralValue → Option LiteralValue) : FunctionRegistry :=
  let reg' :=
    if assocHas reg.function_ids name then reg
    else
      { reg with
        function_ids := assocInsert reg.function_ids name reg.function_names.length
        function_names := reg.function_names ++ [name] }
  { reg' with functions := assocInsert reg'.functions name f }

/-- Mirror of `FunctionRegistry::function_id`. -/
def FunctionRegistry.function_id (reg : FunctionRegistry) (name : String) : Option Nat :=
  assocGet reg.function_ids name

/-- Mirror of `FunctionRegistry::function_name`. -/
def FunctionRegistry.function_name (reg : FunctionRegistry) (id : Nat) : Option String :=
  reg.function_names.get? id

/-- Mirror of `FunctionRegistry::get_by_id`. -/
def FunctionRegistry.get_by_id (reg : FunctionRegistry) (id : Nat) :
    Option (List LiteralValue → Option LiteralValue) :=
  match reg.function_names.get? id with
  | some name => assocGet reg.functions name
  | none => none

/-- Mirror of `BuiltinFunctionId` in `src/functions.rs`. -/
inductive BuiltinFunctionId where
  | len
  | upper
  | lower
  | sum
  | startsWith
  | endsWith
deriving DecidableEq

/-- Mirror of `BuiltinFunctionId::from_name`. -/
def BuiltinFunctionId.from_name : String → Option BuiltinFunctionId
  | "len" => some .len
  | "upper" => some .upper
  | "lower" => some .lower
  | "sum" => some .sum
  | "starts_with" => some .startsWith
  | "ends_with" => some .endsWith
  | _ => none

/-- Sum of the `Int` elements of a list, skipping non-`Int` elements
(the `filter_map` + `sum` in the `sum` builtin; i64 wrap-around is not
modelled, no claim exercises it). -/
def sumInts (vs : List LiteralValue) : Int :=
  (vs.filterMap (fun v => match v with | .int i => some i | _ => none)).sum

/-- Mirror of `call_builtin` in `src/functions.rs` (case handling of
`from_utf8_lossy` is the identity under the `String` model). -/
def call_builtin : BuiltinFunctionId → List LiteralValue → Option LiteralValue
  | .len, args =>
    match args.head? with
    | some (.array arr) => some (.int (Int.ofNat arr.length))
    | _ => none
  | .upper, args =>
    match args.head? with
    | some (.bytes s) => some (.bytes s.toUpper)
    | _ => none
  | .lower, args =>
    match args.head? with
    | some (.bytes s) => some (.bytes s.toLower)
    | _ => none
  | .sum, args =>
    match args.head? with
    | some (.array arr) => some (.int (sumInts arr))
    | _ => none
  | .startsWith, args =>
    match args.head?, args.get? 1 with
    | some (.bytes h), some (.bytes p) => some (.bool (h.startsWith p))
    | _, _ => none
  | .endsWith, args =>
    match args.head?, args.get? 1 with
    | some (.bytes h), some (.bytes s) => some (.bool (h.endsWith s))
    | _, _ => none

/-- Mirror of `Instruction` in `src/ir.rs`.  `argc` carries the result of the
`as u8` cast already applied by the compiler (a value below 256 for any
bytecode the compiler can emit). -/
inductive Instruction where
  | loadField (fid : Nat)
  | loadLiteral (lit : LiteralValue)
  | callFunction (fid : Nat) (argc : Nat)
  | compareEq
  | compareNeq
  | compareLt
  | compareLte
  | compareGt
  | compareGte
  | compareIn
  | compareNotIn
  | compareMatches
  | compareWildcard (strict : Bool)
  | compareContains
  | logicalAnd
  | logicalOr
  | logicalNot

/-- Mirror of `cmp_ord` in `src/compiler.rs`. -/
def cmp_ord (a b : LiteralValue) (cmp : Int → Int → Bool) : Bool :=
  match a, b with
  | .int x, .int y => cmp x y
  | _, _ => false

/-- Mirror of `cmp_in` in `src/compiler.rs` (`arr.contains(a)`). -/
def cmp_in (a b : LiteralValue) : Bool :=
  match b with
  | .array arr => arr.any (fun x => x.beq a)
  | _ => false

/-- Worker for the prefix test, recursing on the pattern so that an
exhausted pattern matches without inspecting the input. -/
def charsMatchPat : List Char → List Char → Bool
  | [], _ => true
  | _ :: _, [] => false
  | p :: ps, c :: cs => p == c && charsMatchPat ps cs

/-- Whether the character list starts with the given pattern list
(model of byte-slice `starts_with`). -/
def charsStartWith (input pat : List Char) : Bool :=
  charsMatchPat pat input

/-- Whether the pattern occurs as a contiguous run in the character list
(model of `str::contains` on a literal pattern). -/
def charsContain : List Char → List Char → Bool
  | [], pat => pat.isEmpty
  | c :: cs, pat => charsStartWith (c :: cs) pat || charsContain cs pat

/-- Substring containment on the `String` model. -/
def strContains (h n : String) : Bool :=
  charsContain h.toList n.toList

/-- Mirror of `cmp_matches` in `src/compiler.rs` in its no-regex-backend
configuration: substring containment (UTF-8 validity checks are vacuous under
the `String` model). -/
def cmp_matches (a b : LiteralValue) : Bool :=
  match a, b with
  | .bytes s, .bytes pat => strContains s pat
  | _, _ => false

/-- Mirror of `wildcard_match_bytes` in `src/compiler.rs`. -/
def wildcard_match_bytes (s pat : List Char) : Bool :=
  match s, pat with
  | s, [] => s.isEmpty
  | s, p :: pt =>
    if p == '*' then
      (List.range (s.length + 1)).any (fun i => wildcard_match_bytes (List.drop i s) pt)
    else
      match s with
      | [] => false
      | c :: st => if p == c then wildcard_match_bytes st pt else false
termination_by pat.length

/-- Mirror of `wildcard_match` in `src/compiler.rs`. -/
def wildcard_match (s pat : String) (case_sensitive : Bool) : Bool :=
  let s' := if case_sensitive then s else s.toLower
  let p' := if case_sensitive then pat else pat.toLower
  wildcard_match_bytes s'.toList p'.toList

/-- Mirror of `cmp_wildcard` in `src/compiler.rs`. -/
def cmp_wildcard (a b : LiteralValue) (case_sensitive : Bool) : Bool :=
  match a, b with
  | .bytes s, .bytes pat => wildcard_match s pat case_sensitive
  | _, _ => false

/-- Mirror of `cmp_contains` in `src/compiler.rs`. -/
def cmp_contains (a b : LiteralValue) : Bool :=
  match a, b with
  | .bytes h, .bytes n => strContains h n
  | .array arr, v => arr.any (fun x => x.beq v)
  | _, _ => false

/-- Outcome of executing zero or more instructions: a Rust panic, an early
`Err` return, or the updated stack. -/
inductive StepRes where
  | panic
  | err (e : WirerustError)
  | ok (stack : List LiteralValue)

/-- Pop two values (right on top, left below) and push the combined result;
fewer than two values is a stack-underflow panic (`pop().unwrap()`). -/
def bin_step (stack : List LiteralValue)
    (f : LiteralValue → LiteralValue → LiteralValue) : StepRes :=
  match stack with
  | right :: left :: rest => .ok (f left right :: rest)
  | _ => .panic

/-- The non-builtin half of the `CallFunction` case in
`IrCompiledFilter::execute`: look the id up in the registry and invoke the
callable. -/
def call_user (functions : FunctionRegistry) (fid : Nat)
    (args rest : List LiteralValue) : StepRes :=
  match functions.get_by_id fid with
  | none => .err (.functionError (("Function ID ") ++ Nat.repr fid ++ (" not found")))
  | some f =>
    match f args with
    | some r => .ok (r :: rest)
    | none => .err (.functionError (("Function call failed for ID ") ++ Nat.repr fid))

/-- One iteration of the `while pc < bytecode.len()` loop of
`IrCompiledFilter::execute` in `src/compiler.rs`. -/
def exec_step (functions : FunctionRegistry) (ctx : FilterContext) :
    Instruction → List LiteralValue → StepRes
  | .loadField fid, stack =>
    .ok (((ctx.get_by_id fid).getD (.bool false)) :: stack)
  | .loadLiteral lit, stack => .ok (lit :: stack)
  | .callFunction fid argc, stack =>
    if argc ≤ stack.length then
      match functions.function_name fid with
      | some name =>
        match BuiltinFunctionId.from_name name with
        | some bid =>
          match call_builtin bid ((stack.take argc).reverse) with
          | some r => .ok (r :: stack.drop argc)
          | none => .err (.functionError (("Builtin function call failed for ") ++ name))
        | none => call_user functions fid ((stack.take argc).reverse) (stack.drop argc)
      | none => call_user functions fid ((stack.take argc).reverse) (stack.drop argc)
    else
      .panic
  | .compareEq, stack => bin_step stack (fun l r => .bool (l.beq r))
  | .compareNeq, stack => bin_step stack (fun l r => .bool (!(l.beq r)))
  | .compareLt, stack => bin_step stack (fun l r => .bool (cmp_ord l r (fun a b => a < b)))
  | .compareLte, stack => bin_step stack (fun l r => .bool (cmp_ord l r (fun a b => a ≤ b)))
  | .compareGt, stack => bin_step stack (fun l r => .bool (cmp_ord l r (fun a b => a > b)))
  | .compareGte, stack => bin_step stack (fun l r => .bool (cmp_ord l r (fun a b => a ≥ b)))
  | .compareIn, stack => bin_step stack (fun l r => .bool (cmp_in l r))
  | .compareNotIn, stack => bin_step stack (fun l r => .bool (!cmp_in l r))
  | .compareMatches, stack => bin_step stack (fun l r => .bool (cmp_matches l r))
  | .compareWildcard strict, stack =>
    bin_step stack (fun l r => .bool (cmp_wildcard l r strict))
  | .compareContains, stack => bin_step stack (fun l r => .bool (cmp_contains l r))
  | .logicalAnd, stack =>
    bin_step stack (fun l r => .bool (if !to_bool l then false else to_bool r))
  | .logicalOr, stack =>
    bin_step stack (fun l r => .bool (if to_bool l then true else to_bool r))
  | .logicalNot, stack =>
    match stack with
    | a :: rest => .ok (.bool (!to_bool a) :: rest)
    | [] => .panic

/-- Run instructions in order, threading the stack; the program counter only
ever advances by one, so the loop is a fold over the instruction list. -/
def run_bytecode (functions : FunctionRegistry) (ctx : FilterContext) :
    List Instruction → List LiteralValue → StepRes
  | [], stack => .ok stack
  | ins :: rest, stack =>
    match exec_step functions ctx ins stack with
    | .ok stack' => run_bytecode functions ctx rest stack'
    | .err e => .err e
    | .panic => .panic

/-- Result of `IrCompiledFilter::execute`: a panic, a `Err(WirerustError)`,
or `Ok(bool)`. -/
inductive ExecResult where
  | panic
  | err (e : WirerustError)
  | ok (b : Bool)

/-- Mirror of `IrCompiledFilter` in `src/compiler.rs`. -/
structure IrCompiledFilter where
  bytecode : List Instruction
  schema : FilterSchema
  functions : FunctionRegistry

/-- The `match stack.pop()` epilogue of `IrCompiledFilter::execute`. -/
def finish_stack (stack : List LiteralValue) : ExecResult :=
  match stack with
  | [] => .err (.executionError ("Empty stack after execution"))
  | (.bool b) :: _ => .ok b
  | v :: _ => .ok (to_bool v)

/-- Mirror of `IrCompiledFilter::execute` in `src/compiler.rs`. -/
def IrCompiledFilter.execute (f : IrCompiledFilter) (ctx : FilterContext) : ExecResult :=
  match run_bytecode f.functions ctx f.bytecode [] with
  | .panic => .panic
  | .err e => .err e
  | .ok stack => finish_stack stack

/-- Mirror of `LogicalOp` in `src/expr.rs`. -/
inductive LogicalOp where
  | and
  | or
deriving DecidableEq

/-- Mirror of `ComparisonOp` in `src/expr.rs` (`In`/`NotIn` renamed to
`inOp`/`notIn` because `in` is reserved in Lean). -/
inductive ComparisonOp where
  | eq
  | neq
  | lt
  | lte
  | gt
  | gte
  | inOp
  | notIn
  | matches
  | wildcard
  | strictWildcard
  | contains
deriving DecidableEq

/-- Mirror of `FilterExpr` in `src/expr.rs`. -/
inductive FilterExpr where
  | logicalOp (op : LogicalOp) (left right : FilterExpr)
  | comparison (left : FilterExpr) (op : ComparisonOp) (right : FilterExpr)
  | not (e : FilterExpr)
  | value (v : LiteralValue)
  | functionCall (name : String) (args : List FilterExpr)
  | list (vs : List LiteralValue)

/-- The opcode selected for a comparison operator by `compile_ir`. -/
def comparisonInstr : ComparisonOp → Instruction
  | .eq => .compareEq
  | .neq => .compareNeq
  | .lt => .compareLt
  | .lte => .compareLte
  | .gt => .compareGt
  | .gte => .compareGte
  | .inOp => .compareIn
  | .notIn => .compareNotIn
  | .matches => .compareMatches
  | .wildcard => .compareWildcard false
  | .strictWildcard => .compareWildcard true
  | .contains => .compareContains

/-- The opcode selected for a logical operator by `compile_ir`. -/
def logicalInstr : LogicalOp → Instruction
  | .and => .logicalAnd
  | .or => .logicalOr

mutual

/-- Mirror of `DefaultCompiler::compile_ir` in `src/compiler.rs`.  Pushing
into the `&mut Vec` is modelled by list concatenation.  The UTF-8 validity
check on a `Bytes` name is vacuous under the `String` model. -/
def compile_ir (schema : FilterSchema) (functions : FunctionRegistry) :
    FilterExpr → List Instruction
  | .logicalOp op l r =>
    compile_ir schema functions l ++ compile_ir schema functions r ++ [logicalInstr op]
  | .comparison l op r =>
    compile_ir schema functions l ++ compile_ir schema functions r ++ [comparisonInstr op]
  | .not e => compile_ir schema functions e ++ [.logicalNot]
  | .value v =>
    match v with
    | .bytes s =>
      match schema.field_id s with
      | some fid => [.loadField fid]
      | none => [.loadLiteral (.bytes s)]
    | _ => [.loadLiteral v]
  | .functionCall name args =>
    compile_args schema functions args ++
      [match functions.function_id name with
       | some fid => .callFunction fid (args.length % 256)
       | none => .callFunction USIZE_MAX (args.length % 256)]
  | .list vs => [.loadLiteral (.array vs)]

/-- Argument emission loop of the `FunctionCall` arm of `compile_ir`. -/
def compile_args (schema : FilterSchema) (functions : FunctionRegistry) :
    List FilterExpr → List Instruction
  | [] => []
  | a :: rest => compile_ir schema functions a ++ compile_args schema functions rest

end

/-- Mirror of `DefaultCompiler::compile` in `src/compiler.rs`. -/
def DefaultCompiler.compile (expr : FilterExpr) (schema : FilterSchema)
    (functions : FunctionRegistry) : IrCompiledFilter :=
  { bytecode := compile_ir schema functions expr
    schema := schema
    functions := functions }

mutual

/-- Whether every `FunctionCall` node in the expression has fewer than 256
arguments, so that the compiler's `as u8` cast of the argument count is
lossless. -/
def smallArity : FilterExpr → Bool
  | .logicalOp _ l r => smallArity l && smallArity r
  | .comparison l _ r => smallArity l && smallArity r
  | .not e => smallArity e
  | .value _ => true
  | .functionCall _ args => decide (args.length < 256) && smallArityList args
  | .list _ => true

/-- `smallArity` over an argument list. -/
def smallArityList : List FilterExpr → Bool
  | [] => true
  | a :: rest => smallArity a && smallArityList rest

end

/-- Executing a single instruction list `a ++ b` factors through the
intermediate stack (the program counter only ever advances by one). -/
theorem run_bytecode_append (functions : FunctionRegistry) (ctx : FilterContext)
    (a b : List Instruction) (s : List LiteralValue) :
    run_bytecode functions ctx (a ++ b) s =
      match run_bytecode functions ctx a s with
      | .ok s' => run_bytecode functions ctx b s'
      | .err e => .err e
      | .panic => .panic := by
  induction a generalizing s with
  | nil => rfl
  | cons i rest ih =>
    show run_bytecode functions ctx (i :: (rest ++ b)) s = _
    simp only [run_bytecode]
    cases exec_step functions ctx i s with
    | ok s' => exact ih s'
    | err e => rfl
    | panic => rfl

/-- The pure pop-pop-push combinator applied to a stack with one value on
top of junk on top of one value on top of junk on top of `s` succeeds and
leaves a single value above some junk above `s`. -/
theorem bin_step_shape (f : LiteralValue → LiteralValue → LiteralValue)
    (v₂ v₁ : LiteralValue) (t₂ t₁ s : List LiteralValue) :
    ∃ w t, bin_step (v₂ :: (t₂ ++ (v₁ :: (t₁ ++ s)))) f = .ok (w :: (t ++ s)) := by
  cases t₂ with
  | nil => exact ⟨f v₁ v₂, t₁, rfl⟩
  | cons x xs =>
    refine ⟨f x v₂, xs ++ v₁ :: t₁, ?_⟩
    simp [bin_step]

/-- The result-combining function of each two-operand opcode. -/
def binFn : Instruction → Option (LiteralValue → LiteralValue → LiteralValue)
  | .compareEq => some (fun l r => .bool (l.beq r))
  | .compareNeq => some (fun l r => .bool (!(l.beq r)))
  | .compareLt => some (fun l r => .bool (cmp_ord l r (fun a b => a < b)))
  | .compareLte => some (fun l r => .bool (cmp_ord l r (fun a b => a ≤ b)))
  | .compareGt => some (fun l r => .bool (cmp_ord l r (fun a b => a > b)))
  | .compareGte => some (fun l r => .bool (cmp_ord l r (fun a b => a ≥ b)))
  | .compareIn => some (fun l r => .bool (cmp_in l r))
  | .compareNotIn => some (fun l r => .bool (!cmp_in l r))
  | .compareMatches => some (fun l r => .bool (cmp_matches l r))
  | .compareWildcard strict => some (fun l r => .bool (cmp_wildcard l r strict))
  | .compareContains => some (fun l r => .bool (cmp_contains l r))
  | .logicalAnd => some (fun l r => .bool (if !to_bool l then false else to_bool r))
  | .logicalOr => some (fun l r => .bool (if to_bool l then true else to_bool r))
  | _ => none

/-- Every two-operand opcode executes as `bin_step` with its combining
function. -/
theorem exec_step_binary (functions : FunctionRegistry) (ctx : FilterContext)
    (i : Instruction) (f : LiteralValue → LiteralValue → LiteralValue)
    (h : binFn i = some f) (stack : List LiteralValue) :
    exec_step functions ctx i stack = bin_step stack f := by
  cases i <;> simp_all [binFn, exec_step]

/-- The opcode emitted for a comparison operator is a two-operand opcode. -/
theorem comparisonInstr_bin (op : ComparisonOp) :
    ∃ f, binFn (comparisonInstr op) = some f := by
  cases op <;> exact ⟨_, rfl⟩

/-- The opcode emitted for a logical operator is a two-operand opcode. -/
theorem logicalInstr_bin (op : LogicalOp) :
    ∃ f, binFn (logicalInstr op) = some f := by
  cases op <;> exact ⟨_, rfl⟩

/-- Running a single two-operand opcode on a stack of the invariant shape
keeps the shape. -/
theorem run_single_binary (functions : FunctionRegistry) (ctx : FilterContext)
    (i : Instruction) (f : LiteralValue → LiteralValue → LiteralValue)
    (h : binFn i = some f) (v₂ v₁ : LiteralValue) (t₂ t₁ s : List LiteralValue) :
    ∃ w t, run_bytecode functions ctx [i] (v₂ :: (t₂ ++ (v₁ :: (t₁ ++ s)))) =
      .ok (w :: (t ++ s)) := by
  obtain ⟨w, t, hb⟩ := bin_step_shape f v₂ v₁ t₂ t₁ s
  refine ⟨w, t, ?_⟩
  simp [run_bytecode, exec_step_binary functions ctx i f h, hb]

/-- The user-function half of `CallFunction` either raises a
`FunctionError` or pushes exactly one result. -/
theorem call_user_shape (functions : FunctionRegistry) (fid : Nat)
    (args rest : List LiteralValue) :
    (∃ e, call_user functions fid args rest = .err e) ∨
    (∃ r, call_user functions fid args rest = .ok (r :: rest)) := by
  cases h : functions.get_by_id fid with
  | none =>
    refine .inl ⟨.functionError (("Function ID ") ++ Nat.repr fid ++ (" not found")), ?_⟩
    simp [call_user, h]
  | some f =>
    cases h₂ : f args with
    | none =>
      refine .inl ⟨.functionError (("Function call failed for ID ") ++ Nat.repr fid), ?_⟩
      simp [call_user, h, h₂]
    | some r => exact .inr ⟨r, by simp [call_user, h, h₂]⟩

/-- A `CallFunction` whose argument count fits in the stack either raises a
`FunctionError` or pops `argc` values and pushes exactly one result. -/
theorem exec_step_call_shape (functions : FunctionRegistry) (ctx : FilterContext)
    (fid argc : Nat) (stack : List LiteralValue) (h : argc ≤ stack.length) :
    (∃ e, exec_step functions ctx (.callFunction fid argc) stack = .err e) ∨
    (∃ r, exec_step functions ctx (.callFunction fid argc) stack =
      .ok (r :: stack.drop argc)) := by
  simp only [exec_step, if_pos h]
  split
  · split
    · split
      · exact .inr ⟨_, rfl⟩
      · exact .inl ⟨_, rfl⟩
    · exact call_user_shape functions fid _ _
  · exact call_user_shape functions fid _ _

mutual

/-- Stack-shape invariant: running the bytecode compiled from any expression
either stops with an `Err` or succeeds with one value on top of some
leftover values on top of the untouched initial stack — in particular it
never under-pops (`StepRes.panic` is impossible). -/
theorem run_compile_ir_shape (schema : FilterSchema) (functions : FunctionRegistry)
    (ctx : FilterContext) (e : FilterExpr) (s : List LiteralValue) :
    (∃ er, run_bytecode functions ctx (compile_ir schema functions e) s = .err er) ∨
    (∃ v t, run_bytecode functions ctx (compile_ir schema functions e) s =
      .ok (v :: (t ++ s))) := by
  cases e with
  | logicalOp op l r =>
    simp only [compile_ir]
    rw [run_bytecode_append, run_bytecode_append]
    rcases run_compile_ir_shape schema functions ctx l s with ⟨er, h⟩ | ⟨v₁, t₁, h⟩
    · simp only [h]; exact .inl ⟨er, rfl⟩
    · simp only [h]
      rcases run_compile_ir_shape schema functions ctx r (v₁ :: (t₁ ++ s)) with
        ⟨er, h₂⟩ | ⟨v₂, t₂, h₂⟩
      · simp only [h₂]; exact .inl ⟨er, rfl⟩
      · simp only [h₂]
        obtain ⟨f, hf⟩ := logicalInstr_bin op
        obtain ⟨w, t, hr⟩ := run_single_binary functions ctx _ f hf v₂ v₁ t₂ t₁ s
        exact .inr ⟨w, t, hr⟩
  | comparison l op r =>
    simp only [compile_ir]
    rw [run_bytecode_append, run_bytecode_append]
    rcases run_compile_ir_shape schema functions ctx l s with ⟨er, h⟩ | ⟨v₁, t₁, h⟩
    · simp only [h]; exact .inl ⟨er, rfl⟩
    · simp only [h]
      rcases run_compile_ir_shape schema functions ctx r (v₁ :: (t₁ ++ s)) with
        ⟨er, h₂⟩ | ⟨v₂, t₂, h₂⟩
      · simp only [h₂]; exact .inl ⟨er, rfl⟩
      · simp only [h₂]
        obtain ⟨f, hf⟩ := comparisonInstr_bin op
        obtain ⟨w, t, hr⟩ := run_single_binary functions ctx _ f hf v₂ v₁ t₂ t₁ s
        exact .inr ⟨w, t, hr⟩
  | not e₁ =>
    simp only [compile_ir]
    rw [run_bytecode_append]
    rcases run_compile_ir_shape schema functions ctx e₁ s with ⟨er, h⟩ | ⟨v, t, h⟩
    · simp only [h]; exact .inl ⟨er, rfl⟩
    · simp only [h]
      exact .inr ⟨.bool (!to_bool v), t, by simp [run_bytecode, exec_step]⟩
  | value v =>
    cases v with
    | bytes str =>
      cases hf : schema.field_id str with
      | some fid =>
        refine .inr ⟨(ctx.get_by_id fid).getD (.bool false), [], ?_⟩
        simp [compile_ir, hf, run_bytecode, exec_step]
      | none =>
        refine .inr ⟨.bytes str, [], ?_⟩
        simp [compile_ir, hf, run_bytecode, exec_step]
    | int i =>
      exact .inr ⟨.int i, [], by simp [compile_ir, run_bytecode, exec_step]⟩
    | bool b =>
      exact .inr ⟨.bool b, [], by simp [compile_ir, run_bytecode, exec_step]⟩
    | ip a =>
      exact .inr ⟨.ip a, [], by simp [compile_ir, run_bytecode, exec_step]⟩
    | array vs =>
      exact .inr ⟨.array vs, [], by simp [compile_ir, run_bytecode, exec_step]⟩
    | map m =>
      exact .inr ⟨.map m, [], by simp [compile_ir, run_bytecode, exec_step]⟩
  | functionCall name args =>
    obtain ⟨fid', hcode⟩ : ∃ fid', compile_ir schema functions (.functionCall name args) =
        compile_args schema functions args ++
          [Instruction.callFunction fid' (args.length % 256)] := by
      cases hn : functions.function_id name with
      | some fid => exact ⟨fid, by simp [compile_ir, hn]⟩
      | none => exact ⟨USIZE_MAX, by simp [compile_ir, hn]⟩
    rw [hcode, run_bytecode_append]
    rcases run_compile_args_shape schema functions ctx args s with ⟨er, h⟩ | ⟨t, h, hlen⟩
    · simp only [h]; exact .inl ⟨er, rfl⟩
    · simp only [h]
      have hargc : args.length % 256 ≤ (t ++ s).length := by
        have h₁ : args.length % 256 ≤ args.length := Nat.mod_le _ _
        have h₂ : t.length ≤ (t ++ s).length := by simp
        omega
      rcases exec_step_call_shape functions ctx fid' (args.length % 256) (t ++ s) hargc with
        ⟨er, hc⟩ | ⟨r, hc⟩
      · exact .inl ⟨er, by simp [run_bytecode, hc]⟩
      · refine .inr ⟨r, t.drop (args.length % 256), ?_⟩
        have hd : (t ++ s).drop (args.length % 256) = t.drop (args.length % 256) ++ s :=
          List.drop_append_of_le_length (le_trans (Nat.mod_le _ _) hlen)
        simp [run_bytecode, hc, hd]
  | list vs =>
    exact .inr ⟨.array vs, [], by simp [compile_ir, run_bytecode, exec_step]⟩

/-- Stack-shape invariant for the argument emission loop: it either stops
with an `Err` or pushes at least one value per argument above the untouched
initial stack. -/
theorem run_compile_args_shape (schema : FilterSchema) (functions : FunctionRegistry)
    (ctx : FilterContext) (args : List FilterExpr) (s : List LiteralValue) :
    (∃ er, run_bytecode functions ctx (compile_args schema functions args) s = .err er) ∨
    (∃ t, run_bytecode functions ctx (compile_args schema functions args) s =
      .ok (t ++ s) ∧ args.length ≤ t.length) := by
  cases args with
  | nil => exact .inr ⟨[], rfl, by simp⟩
  | cons a rest =>
    simp only [compile_args]
    rw [run_bytecode_append]
    rcases run_compile_ir_shape schema functions ctx a s with ⟨er, h⟩ | ⟨v, t, h⟩
    · simp only [h]; exact .inl ⟨er, rfl⟩
    · simp only [h]
      rcases run_compile_args_shape schema functions ctx rest (v :: (t ++ s)) with
        ⟨er, h₂⟩ | ⟨t', h₂, hlen⟩
      · simp only [h₂]; exact .inl ⟨er, rfl⟩
      · refine .inr ⟨t' ++ v :: t, ?_, ?_⟩
        · simp only [h₂]; simp
        · simp only [List.length_append, List.length_cons]
          omega

end

mutual

/-- Exact stack discipline: when every function call in the expression has
fewer than 256 arguments, running the compiled bytecode either stops with an
`Err` or pushes exactly one value above the untouched initial stack. -/
theorem run_compile_ir_exact (schema : FilterSchema) (functions : FunctionRegistry)
    (ctx : FilterContext) (e : FilterExpr) (hs : smallArity e = true)
    (s : List LiteralValue) :
    (∃ er, run_bytecode functions ctx (compile_ir schema functions e) s = .err er) ∨
    (∃ v, run_bytecode functions ctx (compile_ir schema functions e) s = .ok (v :: s)) := by
  cases e with
  | logicalOp op l r =>
    simp only [smallArity, Bool.and_eq_true] at hs
    simp only [compile_ir]
    rw [run_bytecode_append, run_bytecode_append]
    rcases run_compile_ir_exact schema functions ctx l hs.1 s with ⟨er, h⟩ | ⟨v₁, h⟩
    · simp only [h]; exact .inl ⟨er, rfl⟩
    · simp only [h]
      rcases run_compile_ir_exact schema functions ctx r hs.2 (v₁ :: s) with
        ⟨er, h₂⟩ | ⟨v₂, h₂⟩
      · simp only [h₂]; exact .inl ⟨er, rfl⟩
      · simp only [h₂]
        obtain ⟨f, hf⟩ := logicalInstr_bin op
        refine .inr ⟨f v₁ v₂, ?_⟩
        simp [run_bytecode, exec_step_binary functions ctx _ f hf, bin_step]
  | comparison l op r =>
    simp only [smallArity, Bool.and_eq_true] at hs
    simp only [compile_ir]
    rw [run_bytecode_append, run_bytecode_append]
    rcases run_compile_ir_exact schema functions ctx l hs.1 s with ⟨er, h⟩ | ⟨v₁, h⟩
    · simp only [h]; exact .inl ⟨er, rfl⟩
    · simp only [h]
      rcases run_compile_ir_exact schema functions ctx r hs.2 (v₁ :: s) with
        ⟨er, h₂⟩ | ⟨v₂, h₂⟩
      · simp only [h₂]; exact .inl ⟨er, rfl⟩
      · simp only [h₂]
        obtain ⟨f, hf⟩ := comparisonInstr_bin op
        refine .inr ⟨f v₁ v₂, ?_⟩
        simp [run_bytecode, exec_step_binary functions ctx _ f hf, bin_step]
  | not e₁ =>
    simp only [smallArity] at hs
    simp only [compile_ir]
    rw [run_bytecode_append]
    rcases run_compile_ir_exact schema functions ctx e₁ hs s with ⟨er, h⟩ | ⟨v, h⟩
    · simp only [h]; exact .inl ⟨er, rfl⟩
    · simp only [h]
      exact .inr ⟨.bool (!to_bool v), by simp [run_bytecode, exec_step]⟩
  | value v =>
    cases v with
    | bytes str =>
      cases hf : schema.field_id str with
      | some fid =>
        refine .inr ⟨(ctx.get_by_id fid).getD (.bool false), ?_⟩
        simp [compile_ir, hf, run_bytecode, exec_step]
      | none =>
        refine .inr ⟨.bytes str, ?_⟩
        simp [compile_ir, hf, run_bytecode, exec_step]
    | int i => exact .inr ⟨.int i, by simp [compile_ir, run_bytecode, exec_step]⟩
    | bool b => exact .inr ⟨.bool b, by simp [compile_ir, run_bytecode, exec_step]⟩
    | ip a => exact .inr ⟨.ip a, by simp [compile_ir, run_bytecode, exec_step]⟩
    | array vs => exact .inr ⟨.array vs, by simp [compile_ir, run_bytecode, exec_step]⟩
    | map m => exact .inr ⟨.map m, by simp [compile_ir, run_bytecode, exec_step]⟩
  | functionCall name args =>
    simp only [smallArity, Bool.and_eq_true, decide_eq_true_eq] at hs
    obtain ⟨fid', hcode⟩ : ∃ fid', compile_ir schema functions (.functionCall name args) =
        compile_args schema functions args ++
          [Instruction.callFunction fid' (args.length % 256)] := by
      cases hn : functions.function_id name with
      | some fid => exact ⟨fid, by simp [compile_ir, hn]⟩
      | none => exact ⟨USIZE_MAX, by simp [compile_ir, hn]⟩
    rw [hcode, run_bytecode_append]
    rcases run_compile_args_exact schema functions ctx args hs.2 s with
      ⟨er, h⟩ | ⟨vs, h, hlen⟩
    · simp only [h]; exact .inl ⟨er, rfl⟩
    · simp only [h]
      have hargc : args.length % 256 = vs.length := by
        rw [Nat.mod_eq_of_lt hs.1, hlen]
      have hle : args.length % 256 ≤ (vs ++ s).length := by
        simp [hargc]
      rcases exec_step_call_shape functions ctx fid' (args.length % 256) (vs ++ s) hle with
        ⟨er, hc⟩ | ⟨r, hc⟩
      · exact .inl ⟨er, by simp [run_bytecode, hc]⟩
      · refine .inr ⟨r, ?_⟩
        have hd : (vs ++ s).drop (args.length % 256) = s := by
          rw [hargc]; exact List.drop_left vs s
        simp [run_bytecode, hc, hd]
  | list vs => exact .inr ⟨.array vs, by simp [compile_ir, run_bytecode, exec_step]⟩

/-- Exact stack discipline for the argument emission loop: one value pushed
per argument. -/
theorem run_compile_args_exact (schema : FilterSchema) (functions : FunctionRegistry)
    (ctx : FilterContext) (args : List FilterExpr) (hs : smallArityList args = true)
    (s : List LiteralValue) :
    (∃ er, run_bytecode functions ctx (compile_args schema functions args) s = .err er) ∨
    (∃ vs, run_bytecode functions ctx (compile_args schema functions args) s =
      .ok (vs ++ s) ∧ vs.length = args.length) := by
  cases args with
  | nil => exact .inr ⟨[], rfl, rfl⟩
  | cons a rest =>
    simp only [smallArityList, Bool.and_eq_true] at hs
    simp only [compile_args]
    rw [run_bytecode_append]
    rcases run_compile_ir_exact schema functions ctx a hs.1 s with ⟨er, h⟩ | ⟨v, h⟩
    · simp only [h]; exact .inl ⟨er, rfl⟩
    · simp only [h]
      rcases run_compile_args_exact schema functions ctx rest hs.2 (v :: s) with
        ⟨er, h₂⟩ | ⟨vs', h₂, hlen⟩
      · simp only [h₂]; exact .inl ⟨er, rfl⟩
      · refine .inr ⟨vs' ++ [v], ?_, ?_⟩
        · simp only [h₂]; simp
        · simp [hlen]

end

/-- A schema with no fields. -/
def emptySchema : FilterSchema := ⟨[], [], []⟩

/-- A registry whose single function `f` returns `Bool(true)`. -/
def bigCallReg : FunctionRegistry :=
  FunctionRegistry.new.register ("f") (fun _ => some (.bool true))

/-- A function call with 256 arguments: the compiler's `args.len() as u8`
cast truncates its argument count to 0. -/
def bigCallExpr : FilterExpr :=
  .functionCall ("f") (List.replicate 256 (.value (.int 1)))

/-- A small closed comparison expression used to instantiate theorems. -/
def demoExpr : FilterExpr := .comparison (.value (.int 1)) .eq (.value (.int 1))

/-- C2 (amended): executing the bytecode compiled from any `FilterExpr`
never pops from an empty stack (no `pop().unwrap()` or `split_off` failure,
i.e. no panic), and — provided every `FunctionCall` node has fewer than 256
arguments, so the `as u8` cast of the argument count is lossless — when
execution reaches the end of the bytecode exactly one value remains on the
stack. -/
theorem claim_c2_stack_discipline (schema : FilterSchema) (functions : FunctionRegistry)
    (ctx : FilterContext) (e : FilterExpr) :
    run_bytecode functions ctx (DefaultCompiler.compile e schema functions).bytecode []
      ≠ .panic ∧
    (smallArity e = true →
      ∀ s, run_bytecode functions ctx
          (DefaultCompiler.compile e schema functions).bytecode [] = .ok s →
        ∃ v, s = [v]) := by
  constructor
  · rcases run_compile_ir_shape schema functions ctx e [] with ⟨er, h⟩ | ⟨v, t, h⟩ <;>
      (show run_bytecode functions ctx (compile_ir schema functions e) [] ≠ .panic
       rw [h]
       intro hc
       cases hc)
  · intro hs s hrun
    rcases run_compile_ir_exact schema functions ctx e hs [] with ⟨er, h⟩ | ⟨v, h⟩
    · rw [show (DefaultCompiler.compile e schema functions).bytecode =
          compile_ir schema functions e from rfl, h] at hrun
      cases hrun
    · rw [show (DefaultCompiler.compile e schema functions).bytecode =
          compile_ir schema functions e from rfl, h] at hrun
      cases hrun
      exact ⟨v, rfl⟩

/-- Witness for C2 at a concrete expression: `1 == 1` compiles to bytecode
whose execution leaves exactly the single value `Bool(true)`. -/
theorem claim_c2_stack_discipline_witness :
    run_bytecode FunctionRegistry.new FilterContext.new
      (DefaultCompiler.compile demoExpr emptySchema FunctionRegistry.new).bytecode []
      ≠ .panic ∧
    (∃ v, ([LiteralValue.bool true] : List LiteralValue) = [v]) :=
  ⟨(claim_c2_stack_discipline emptySchema FunctionRegistry.new FilterContext.new demoExpr).1,
   (claim_c2_stack_discipline emptySchema FunctionRegistry.new FilterContext.new demoExpr).2
     rfl [LiteralValue.bool true] rfl⟩

/-- Counterexample to C2 as stated: for the parser-expressible expression
`f(1, 1, ..., 1)` with 256 arguments, the compiled bytecode executes to
completion with 257 values on the stack, not exactly one (the emitted
`CallFunction` argument count is `256 % 256 = 0`). -/
theorem claim_c2_counterexample :
    (∃ s, run_bytecode bigCallReg FilterContext.new
        (DefaultCompiler.compile bigCallExpr emptySchema bigCallReg).bytecode [] = .ok s ∧
      s.length = 257) ∧
    smallArity bigCallExpr = false :=
  ⟨⟨LiteralValue.bool true :: List.replicate 256 (.int 1), rfl, rfl⟩, rfl⟩

/-- C3: when the program counter reaches the end of the bytecode with final
stack `stack`, `execute` returns `b` if the popped top is `Bool(b)`, the
truthiness coercion of the top for any other value, and an `ExecutionError`
if the stack is empty; moreover for bytecode compiled from an expression
whose function calls all have fewer than 256 arguments, exactly one value
remains at that point. -/
theorem claim_c3_termination (f : IrCompiledFilter) (ctx : FilterContext)
    (stack : List LiteralValue)
    (hrun : run_bytecode f.functions ctx f.bytecode [] = .ok stack) :
    (stack = [] →
      f.execute ctx = .err (.executionError ("Empty stack after execution"))) ∧
    (∀ b rest, stack = .bool b :: rest → f.execute ctx = .ok b) ∧
    (∀ v rest, stack = v :: rest → (∀ b, v ≠ .bool b) →
      f.execute ctx = .ok (to_bool v)) ∧
    (∀ schema functions e, smallArity e = true →
      f = DefaultCompiler.compile e schema functions → stack.length = 1) := by
  refine ⟨?_, ?_, ?_, ?_⟩
  · intro hnil
    subst hnil
    simp [IrCompiledFilter.execute, hrun, finish_stack]
  · intro b rest hcons
    subst hcons
    simp [IrCompiledFilter.execute, hrun, finish_stack]
  · intro v rest hcons hnb
    subst hcons
    cases v with
    | bool b => exact absurd rfl (hnb b)
    | bytes s => simp [IrCompiledFilter.execute, hrun, finish_stack]
    | int i => simp [IrCompiledFilter.execute, hrun, finish_stack]
    | ip a => simp [IrCompiledFilter.execute, hrun, finish_stack]
    | array vs => simp [IrCompiledFilter.execute, hrun, finish_stack]
    | map m => simp [IrCompiledFilter.execute, hrun, finish_stack]
  · intro schema functions e hs hf
    subst hf
    simp only [DefaultCompiler.compile] at hrun
    rcases run_compile_ir_exact schema functions ctx e hs [] with ⟨er, h⟩ | ⟨v, h⟩
    · rw [h] at hrun; cases hrun
    · rw [h] at hrun
      cases hrun
      rfl

/-- Witness for C3: with final stack `[Int 7]`, `execute` returns the
truthiness coercion `true`; with final stack `[Bool false]` it returns
`false`. -/
theorem claim_c3_termination_witness :
    IrCompiledFilter.execute ⟨[.loadLiteral (.int 7)], emptySchema, FunctionRegistry.new⟩
      FilterContext.new = .ok true ∧
    IrCompiledFilter.execute ⟨[.loadLiteral (.bool false)], emptySchema, FunctionRegistry.new⟩
      FilterContext.new = .ok false :=
  ⟨(claim_c3_termination ⟨[.loadLiteral (.int 7)], emptySchema, FunctionRegistry.new⟩
      FilterContext.new [.int 7] rfl).2.2.1 (.int 7) [] rfl (fun b h => by cases h),
   (claim_c3_termination ⟨[.loadLiteral (.bool false)], emptySchema, FunctionRegistry.new⟩
      FilterContext.new [.bool false] rfl).2.1 false [] rfl⟩

/-- C5: executing `LoadField(id)` pushes the context value at `id` when the
slot is set, pushes `Bool(false)` when the slot is unset or `id` is out of
range, and never produces an error or a panic. -/
theorem claim_c5_load_field (functions : FunctionRegistry) (ctx : FilterContext)
    (fid : Nat) (stack : List LiteralValue) :
    (∀ v, ctx.get_by_id fid = some v →
      exec_step functions ctx (.loadField fid) stack = .ok (v :: stack)) ∧
    (ctx.get_by_id fid = none →
      exec_step functions ctx (.loadField fid) stack = .ok (.bool false :: stack)) ∧
    (ctx.field_values.length ≤ fid → ctx.get_by_id fid = none) ∧
    (∃ s', exec_step functions ctx (.loadField fid) stack = .ok s') := by
  refine ⟨?_, ?_, ?_, ?_⟩
  · intro v hv
    simp [exec_step, hv]
  · intro hv
    simp [exec_step, hv]
  · intro hlen
    have hnone : ctx.field_values[fid]? = none := List.getElem?_eq_none hlen
    simp [FilterContext.get_by_id, hnone]
  · exact ⟨_, rfl⟩

/-- Witness for C5: in a context whose slot 0 holds `Int 5`, `LoadField 0`
pushes `Int 5` and `LoadField 3` (out of range) pushes `Bool(false)`. -/
theorem claim_c5_load_field_witness :
    exec_step FunctionRegistry.new ⟨[some (.int 5)]⟩ (.loadField 0) [] =
      .ok [.int 5] ∧
    exec_step FunctionRegistry.new ⟨[some (.int 5)]⟩ (.loadField 3) [] =
      .ok [.bool false] :=
  ⟨(claim_c5_load_field FunctionRegistry.new ⟨[some (.int 5)]⟩ 0 []).1 (.int 5) rfl,
   (claim_c5_load_field FunctionRegistry.new ⟨[some (.int 5)]⟩ 3 []).2.1 rfl⟩

/-- C6: the truthiness coercion used by the logical opcodes and at program
termination is total over all `Value` variants: `Bool(b)` gives `b`,
`Int(i)` gives `i ≠ 0`, any `Bytes` (including the empty byte string) gives
`true`, any `Ip` gives `true`, `Array(a)` is true iff `a` is non-empty, and
`Map(m)` is true iff `m` is non-empty. -/
theorem claim_c6_truthiness :
    (∀ b, to_bool (.bool b) = b) ∧
    (∀ i : Int, (to_bool (.int i) = true ↔ i ≠ 0)) ∧
    (∀ s, to_bool (.bytes s) = true) ∧
    (to_bool (.bytes ("")) = true) ∧
    (∀ a, to_bool (.ip a) = true) ∧
    (∀ vs, (to_bool (.array vs) = true ↔ vs ≠ [])) ∧
    (∀ m, (to_bool (.map m) = true ↔ m ≠ [])) := by
  refine ⟨fun b => rfl, fun i => ?_, fun s => rfl, rfl, fun a => rfl, fun vs => ?_, fun m => ?_⟩
  · simp [to_bool]
  · simp [to_bool, List.isEmpty_iff]
  · simp [to_bool, List.isEmpty_iff]

/-- A registry with at most `usize::MAX` functions resolves neither the name
nor the callable of the sentinel id, so executing the sentinel
`CallFunction` with enough stack raises the function-not-found error. -/
theorem exec_step_sentinel (reg : FunctionRegistry) (ctx : FilterContext)
    (argc : Nat) (stack : List LiteralValue)
    (hreg : reg.function_names.length ≤ USIZE_MAX) (h : argc ≤ stack.length) :
    exec_step reg ctx (.callFunction USIZE_MAX argc) stack =
      .err (.functionError (("Function ID ") ++ Nat.repr USIZE_MAX ++ (" not found"))) := by
  have hn : reg.function_name USIZE_MAX = none := by
    simp only [FunctionRegistry.function_name]
    rw [List.get?_eq_getElem?]
    exact List.getElem?_eq_none hreg
  have hg : reg.get_by_id USIZE_MAX = none := by
    simp only [FunctionRegistry.get_by_id]
    rw [List.get?_eq_getElem?, List.getElem?_eq_none hreg]
  simp [exec_step, if_pos h, hn, call_user, hg]

/-- C4 (amended): compiling a `FunctionCall` whose name is not registered
emits, after the argument instructions, `CallFunction` with the sentinel id
`usize::MAX` and the truncated argument count; and for a registry with at
most `usize::MAX` functions, executing any bytecode containing the sentinel
instruction never returns an `Ok` result — if execution reaches the sentinel
with at least `argc` values on the stack it returns the function-not-found
`FunctionError`, and otherwise it stops earlier with an error or a
stack-underflow panic. -/
theorem claim_c4_sentinel (schema : FilterSchema) (reg : FunctionRegistry)
    (ctx : FilterContext) (name : String) (args : List FilterExpr)
    (code₁ code₂ : List Instruction) (argc : Nat)
    (hname : reg.function_id name = none)
    (hreg : reg.function_names.length ≤ USIZE_MAX) :
    (compile_ir schema reg (.functionCall name args) =
      compile_args schema reg args ++
        [.callFunction USIZE_MAX (args.length % 256)]) ∧
    (∀ b, IrCompiledFilter.execute
      ⟨(code₁ ++ [.callFunction USIZE_MAX argc]) ++ code₂, schema, reg⟩ ctx ≠ .ok b) ∧
    (∀ s', run_bytecode reg ctx code₁ [] = .ok s' → argc ≤ s'.length →
      IrCompiledFilter.execute
        ⟨(code₁ ++ [.callFunction USIZE_MAX argc]) ++ code₂, schema, reg⟩ ctx =
          .err (.functionError (("Function ID ") ++ Nat.repr USIZE_MAX ++ (" not found")))) := by
  refine ⟨by simp [compile_ir, hname], ?_, ?_⟩
  · intro b
    simp only [IrCompiledFilter.execute, run_bytecode_append]
    cases h₁ : run_bytecode reg ctx code₁ [] with
    | panic => intro hc; cases hc
    | err e => intro hc; cases hc
    | ok s' =>
      by_cases hle : argc ≤ s'.length
      · simp only [run_bytecode, exec_step_sentinel reg ctx argc s' hreg hle]
        intro hc; cases hc
      · simp only [run_bytecode, exec_step, if_neg hle]
        intro hc; cases hc
  · intro s' h₁ hle
    simp only [IrCompiledFilter.execute, run_bytecode_append, h₁]
    simp only [run_bytecode, exec_step_sentinel reg ctx argc s' hreg hle]

/-- Witness for C4: in the empty registry, compiling `missing_fn()` emits
the sentinel call, and executing `[LoadLiteral 1, CallFunction(MAX, 1)]`
returns the function-not-found error. -/
theorem claim_c4_sentinel_witness :
    (compile_ir emptySchema FunctionRegistry.new (.functionCall ("missing_fn") []) =
      compile_args emptySchema FunctionRegistry.new [] ++
        [.callFunction USIZE_MAX 0]) ∧
    IrCompiledFilter.execute
      ⟨([.loadLiteral (.int 1)] ++ [.callFunction USIZE_MAX 1]) ++ [],
        emptySchema, FunctionRegistry.new⟩ FilterContext.new =
      .err (.functionError (("Function ID ") ++ Nat.repr USIZE_MAX ++ (" not found"))) :=
  ⟨(claim_c4_sentinel emptySchema FunctionRegistry.new FilterContext.new ("missing_fn")
      [] [.loadLiteral (.int 1)] [] 1 rfl (by simp [FunctionRegistry.new])).1,
   (claim_c4_sentinel emptySchema FunctionRegistry.new FilterContext.new ("missing_fn")
      [] [.loadLiteral (.int 1)] [] 1 rfl (by simp [FunctionRegistry.new])).2.2
     [.int 1] rfl (by simp)⟩

/-- Counterexample to C4 as stated: executing the bytecode
`[CallFunction(usize::MAX, 1)]` from the empty stack panics on the
`split_off` underflow, so `execute` returns neither a `FunctionError` nor a
result. -/
theorem claim_c4_counterexample :
    IrCompiledFilter.execute ⟨[.callFunction USIZE_MAX 1], emptySchema, FunctionRegistry.new⟩
      FilterContext.new = .panic ∧
    (∀ msg, IrCompiledFilter.execute
      ⟨[.callFunction USIZE_MAX 1], emptySchema, FunctionRegistry.new⟩ FilterContext.new ≠
        .err (.functionError msg)) := by
  refine ⟨rfl, ?_⟩
  intro msg h
  have h₂ : ExecResult.panic = ExecResult.err (.functionError msg) := h
  exact ExecResult.noConfusion h₂

/-- The `{:?}` (Debug) rendering of a `FieldType`, as interpolated into the
`TypeError` message by `FilterContext::set`. -/
def FieldType.reprStr : FieldType → String
  | .bytes => "Bytes"
  | .int => "Int"
  | .bool => "Bool"
  | .ip => "Ip"
  | .array t => ("Array(") ++ t.reprStr ++ (")")
  | .map t => ("Map(") ++ t.reprStr ++ (")")
  | .unknown => "Unknown"

/-- The `TypeError` message format of `FilterContext::set`. -/
def typeMismatchMsg (field : String) (expected got : FieldType) : String :=
  ("Type mismatch for field '") ++ field ++ ("': expected ") ++ expected.reprStr ++
    (", got ") ++ got.reprStr

/-- The special-case condition of `FilterContext::set`: the declared type is
`Array(_)` and the value's inferred type is `Array(Unknown)`. -/
def isArrayUnknownCase (expected vt : FieldType) : Bool :=
  match expected, vt with
  | .array _, .array .unknown => true
  | _, _ => false

/-- Mirror of `FilterContext::set` in `src/context.rs`.  The `&mut self`
receiver is modelled by returning the result together with the (possibly
updated) context. -/
def FilterContext.set (ctx : FilterContext) (field : String) (value : LiteralValue)
    (schema : FilterSchema) : Except WirerustError Unit × FilterContext :=
  match schema.get_field_type field with
  | some expected_type =>
    if isArrayUnknownCase expected_type value.get_type then
      match schema.field_id field with
      | some fid => (.ok (), ctx.set_by_id fid value)
      | none => (.ok (), ctx)
    else if value.get_type == expected_type then
      match schema.field_id field with
      | some fid => (.ok (), ctx.set_by_id fid value)
      | none => (.ok (), ctx)
    else
      (.error (.typeError (typeMismatchMsg field expected_type value.get_type)), ctx)
  | none => (.error (.fieldNotFound field), ctx)

/-- Unfolding characterization of the special case as a proposition. -/
theorem isArrayUnknownCase_iff (t vt : FieldType) :
    isArrayUnknownCase t vt = true ↔
      (∃ t', t = .array t') ∧ vt = .array .unknown := by
  cases t <;> cases vt <;>
    first
      | (rename_i e
         cases e <;> simp [isArrayUnknownCase])
      | simp [isArrayUnknownCase]

/-- A built schema with the single field `arr : Array(Int)` (the exact
output of `FilterSchemaBuilder::new().field("arr", Array(Int)).build()`). -/
def arrSchema : FilterSchema := ⟨[(("arr"), .array .int)], [("arr")], [(("arr"), 0)]⟩

/-- C8 (amended): `FilterContext::set` returns `FieldNotFound` exactly when
the named field is absent from the schema; for a registered field of
declared type `t` it succeeds exactly when the value's inferred type equals
`t` or the declared type is `Array(_)` and the inferred type is
`Array(Unknown)` — which happens for the empty array but also for any
non-empty array with mixed element types — and returns the `TypeError`
otherwise. -/
theorem claim_c8_set_type_check (ctx : FilterContext) (field : String)
    (value : LiteralValue) (schema : FilterSchema) :
    ((FilterContext.set ctx field value schema).1 = .error (.fieldNotFound field) ↔
      schema.get_field_type field = none) ∧
    (∀ t, schema.get_field_type field = some t →
      (((FilterContext.set ctx field value schema).1 = .ok () ↔
        (value.get_type = t ∨
          ((∃ t', t = .array t') ∧ value.get_type = .array .unknown))) ∧
       ((FilterContext.set ctx field value schema).1 =
          .error (.typeError (typeMismatchMsg field t value.get_type)) ↔
        (value.get_type ≠ t ∧
          ¬((∃ t', t = .array t') ∧ value.get_type = .array .unknown))))) := by
  constructor
  · cases hft : schema.get_field_type field with
    | none => simp [FilterContext.set, hft]
    | some t =>
      simp only [FilterContext.set, hft]
      by_cases hA : isArrayUnknownCase t value.get_type
      · cases schema.field_id field <;> simp [hA]
      · by_cases hEq : value.get_type == t
        · cases schema.field_id field <;> simp [hA, hEq]
        · simp [hA, hEq]
  · intro t hft
    by_cases hA : isArrayUnknownCase t value.get_type
    · have hcase := (isArrayUnknownCase_iff t value.get_type).mp hA
      have hres : (FilterContext.set ctx field value schema).1 = .ok () := by
        rw [FilterContext.set]
        simp only [hft]
        rw [if_pos hA]
        cases schema.field_id field <;> rfl
      rw [hres]
      refine ⟨⟨fun _ => .inr hcase, fun _ => rfl⟩, ?_, ?_⟩
      · intro hcon; cases hcon
      · intro hcon; exact absurd hcase hcon.2
    · have hcase : ¬((∃ t', t = .array t') ∧ value.get_type = .array .unknown) := by
        intro hc
        exact hA ((isArrayUnknownCase_iff t value.get_type).mpr hc)
      by_cases hEq : value.get_type == t
      · have hvt : value.get_type = t := eq_of_beq hEq
        have hres : (FilterContext.set ctx field value schema).1 = .ok () := by
          rw [FilterContext.set]
          simp only [hft]
          rw [if_neg hA, if_pos hEq]
          cases schema.field_id field <;> rfl
        rw [hres]
        refine ⟨⟨fun _ => .inl hvt, fun _ => rfl⟩, ?_, ?_⟩
        · intro hcon; cases hcon
        · intro hcon; exact absurd hvt hcon.1
      · have hvt : value.get_type ≠ t := by
          intro hc
          exact hEq (by rw [hc]; exact beq_self_eq_true t)
        have hres : (FilterContext.set ctx field value schema).1 =
            .error (.typeError (typeMismatchMsg field t value.get_type)) := by
          rw [FilterContext.set]
          simp only [hft]
          rw [if_neg hA, if_neg hEq]
        rw [hres]
        refine ⟨⟨?_, ?_⟩, fun _ => ⟨hvt, hcase⟩, fun _ => rfl⟩
        · intro hcon; cases hcon
        · intro hcon
          rcases hcon with h | h
          · exact absurd h hvt
          · exact absurd h hcase

/-- Witness for C8 at concrete inputs: writing `Int 5` into `arr :
Array(Int)` is a `TypeError`, writing the empty array succeeds, and writing
to an unregistered name is `FieldNotFound`. -/
theorem claim_c8_set_type_check_witness :
    ((FilterContext.new.set ("arr") (.int 5) arrSchema).1 =
      .error (.typeError (typeMismatchMsg ("arr") (.array .int) .int))) ∧
    ((FilterContext.new.set ("arr") (.array []) arrSchema).1 = .ok ()) ∧
    ((FilterContext.new.set ("nope") (.int 5) arrSchema).1 =
      .error (.fieldNotFound ("nope"))) :=
  by
  refine ⟨?_, ?_, ?_⟩
  · exact ((claim_c8_set_type_check FilterContext.new ("arr") (.int 5) arrSchema).2
      (.array .int) rfl).2.mpr ⟨by decide, fun hc => absurd hc.2 (by decide)⟩
  · exact ((claim_c8_set_type_check FilterContext.new ("arr") (.array []) arrSchema).2
      (.array .int) rfl).1.mpr (.inr ⟨⟨.int, rfl⟩, rfl⟩)
  · exact (claim_c8_set_type_check FilterContext.new ("nope") (.int 5) arrSchema).1.mpr rfl

/-- Counterexample to C8 as stated: the non-empty heterogeneous array
`[Int 1, Bool true]` infers as `Array(Unknown)` and is accepted into the
`Array(Int)` slot, although it is not an empty array and its inferred type
differs from the declared type — the code's exception is wider than the
claimed "empty array" one. -/
theorem claim_c8_counterexample :
    ((FilterContext.new.set ("arr") (.array [.int 1, .bool true]) arrSchema).1 = .ok ()) ∧
    ((LiteralValue.array [.int 1, .bool true]).get_type = .array .unknown) ∧
    ((LiteralValue.array [.int 1, .bool true]).get_type ≠ .array .int) ∧
    ([LiteralValue.int 1, .bool true] ≠ ([] : List LiteralValue)) := by
  refine ⟨rfl, rfl, by decide, ?_⟩
  intro h
  exact List.noConfusion h

/-- C10: `FilterContext::set` is atomic on failure — whenever it returns an
error, the context (its `field_values` vector) is exactly what it was before
the call. -/
theorem claim_c10_set_atomic (ctx : FilterContext) (field : String)
    (value : LiteralValue) (schema : FilterSchema) (e : WirerustError)
    (h : (FilterContext.set ctx field value schema).1 = .error e) :
    (FilterContext.set ctx field value schema).2 = ctx := by
  cases hft : schema.get_field_type field with
  | none => simp [FilterContext.set, hft]
  | some t =>
    by_cases hA : isArrayUnknownCase t value.get_type
    · exfalso
      rw [FilterContext.set] at h
      simp only [hft] at h
      rw [if_pos hA] at h
      cases hfid : schema.field_id field <;> simp [hfid] at h
    · by_cases hEq : value.get_type == t
      · exfalso
        rw [FilterContext.set] at h
        simp only [hft] at h
        rw [if_neg hA, if_pos hEq] at h
        cases hfid : schema.field_id field <;> simp [hfid] at h
      · simp [FilterContext.set, hft, hA, hEq]

/-- Witness for C10: the failing write of `Int 5` into `arr : Array(Int)`
leaves the empty context unchanged. -/
theorem claim_c10_set_atomic_witness :
    (FilterContext.new.set ("arr") (.int 5) arrSchema).2 = FilterContext.new :=
  claim_c10_set_atomic FilterContext.new ("arr") (.int 5) arrSchema
    (.typeError (typeMismatchMsg ("arr") (.array .int) .int)) rfl

/-- Mirror of `FilterSchemaBuilder` in `src/schema.rs`. -/
structure FilterSchemaBuilder where
  fields : List (String × FieldType)

/-- Mirror of `FilterSchemaBuilder::new`. -/
def FilterSchemaBuilder.new : FilterSchemaBuilder := ⟨[]⟩

/-- Mirror of `FilterSchemaBuilder::field` (`HashMap::insert`,
last-write-wins). -/
def FilterSchemaBuilder.field (b : FilterSchemaBuilder) (name : String)
    (ty : FieldType) : FilterSchemaBuilder :=
  ⟨assocInsert b.fields name ty⟩

/-- Lexicographic comparison of character lists (the order `Vec::sort` uses
on `String`, restricted to the ASCII names the claims exercise). -/
def charListLe : List Char → List Char → Bool
  | [], _ => true
  | _ :: _, [] => false
  | c :: cs, d :: ds => if c < d then true else if d < c then false else charListLe cs ds

/-- Lexicographic order on the `String` model. -/
def strLeChars (x y : String) : Bool := charListLe x.toList y.toList

/-- Insertion step of a lexicographic sort (model of `Vec::sort` on the
collected key list; the bijection claims depend only on the sort being a
permutation). -/
def insertSorted (x : String) : List String → List String
  | [] => [x]
  | y :: ys => if strLeChars x y then x :: y :: ys else y :: insertSorted x ys

/-- Sort a list of names (model of `sorted_names.sort()`). -/
def sortStrings : List String → List String
  | [] => []
  | x :: xs => insertSorted x (sortStrings xs)

/-- The id-assignment loop of `FilterSchemaBuilder::build`: each name is
inserted with the current length of the name vector, then pushed. -/
def buildIds : List String → Nat → List (String × Nat)
  | [], _ => []
  | n :: rest, i => (n, i) :: buildIds rest (i + 1)

/-- Mirror of `FilterSchemaBuilder::build` in `src/schema.rs`. -/
def FilterSchemaBuilder.build (b : FilterSchemaBuilder) : FilterSchema :=
  { fields := b.fields
    field_names := sortStrings (b.fields.map Prod.fst)
    field_ids := buildIds (sortStrings (b.fields.map Prod.fst)) 0 }

/-- Inserting into the sorted list is a permutation of consing. -/
theorem insertSorted_perm (x : String) (l : List String) :
    (insertSorted x l).Perm (x :: l) := by
  induction l with
  | nil => exact List.Perm.refl _
  | cons y ys ih =>
    by_cases h : strLeChars x y
    · simp [insertSorted, h]
    · simp only [insertSorted, if_neg h]
      exact (ih.cons y).trans (List.Perm.swap x y ys)

/-- Sorting is a permutation. -/
theorem sortStrings_perm (l : List String) : (sortStrings l).Perm l := by
  induction l with
  | nil => exact List.Perm.refl _
  | cons x xs ih =>
    exact (insertSorted_perm x (sortStrings xs)).trans (ih.cons x)

/-- Looking up the `i`-th name of a duplicate-free list in the id map built
from offset `k` yields `k + i`. -/
theorem assocGet_buildIds (l : List String) (hnd : l.Nodup) (k i : Nat)
    (h : i < l.length) :
    assocGet (buildIds l k) (l.get ⟨i, h⟩) = some (k + i) := by
  induction l generalizing k i with
  | nil => cases h
  | cons n rest ih =>
    cases i with
    | zero => simp [buildIds, assocGet]
    | succ j =>
      have hj : j < rest.length := Nat.lt_of_succ_lt_succ h
      have hne : n ≠ rest.get ⟨j, hj⟩ := by
        intro hc
        exact (List.nodup_cons.mp hnd).1 (hc ▸ List.get_mem rest j hj)
      have hget : (n :: rest).get ⟨j + 1, h⟩ = rest.get ⟨j, hj⟩ := rfl
      rw [hget]
      have hne' : ¬ n = rest[j] := by simpa using hne
      have hstep : assocGet ((n, k) :: buildIds rest (k + 1)) (rest.get ⟨j, hj⟩) =
          assocGet (buildIds rest (k + 1)) (rest.get ⟨j, hj⟩) := by
        simp [assocGet, hne']
      show assocGet ((n, k) :: buildIds rest (k + 1)) (rest.get ⟨j, hj⟩) = some (k + (j + 1))
      rw [hstep, ih (List.nodup_cons.mp hnd).2 (k + 1) j hj]
      congr 1
      omega

/-- Any successful lookup in the id map comes from a position in the name
list, with the id equal to the offset plus that position. -/
theorem assocGet_buildIds_inv (l : List String) (k j : Nat) (name : String)
    (h : assocGet (buildIds l k) name = some j) :
    ∃ i, ∃ hi : i < l.length, l.get ⟨i, hi⟩ = name ∧ j = k + i := by
  induction l generalizing k with
  | nil => simp [buildIds, assocGet] at h
  | cons n rest ih =>
    rw [buildIds, assocGet] at h
    by_cases hb : (n == name)
    · rw [if_pos hb] at h
      refine ⟨0, ?_, ?_, ?_⟩
      · simp
      · exact eq_of_beq hb
      · cases h; omega
    · rw [if_neg hb] at h
      obtain ⟨i, hi, hget, hj⟩ := ih (k + 1) h
      exact ⟨i + 1, Nat.succ_lt_succ hi, hget, by omega⟩

/-- C9: for every schema produced by `FilterSchemaBuilder::build` from a
builder whose field map has no duplicate keys (an invariant of
`HashMap`), the id assignment is a bijection between the registered names
and the contiguous range `[0, N)`: every position holds a name whose id is
that position, every id points back at its name and lies below `N`, every
registered name has an id, and a name determines its position uniquely. -/
theorem claim_c9_schema_bijection (b : FilterSchemaBuilder)
    (hnd : (b.fields.map Prod.fst).Nodup) :
    (∀ i, i < b.build.num_fields →
      ∃ name, b.build.field_name i = some name ∧ b.build.field_id name = some i) ∧
    (∀ name i, b.build.field_id name = some i →
      i < b.build.num_fields ∧ b.build.field_name i = some name) ∧
    (∀ name, name ∈ b.fields.map Prod.fst →
      ∃ i, b.build.field_id name = some i ∧ b.build.field_name i = some name) ∧
    (∀ i j name, b.build.field_name i = some name → b.build.field_name j = some name →
      i = j) := by
  have hsnd : (sortStrings (b.fields.map Prod.fst)).Nodup :=
    ((sortStrings_perm (b.fields.map Prod.fst)).nodup_iff).mpr hnd
  have hkey : ∀ i (h : i < (sortStrings (b.fields.map Prod.fst)).length),
      b.build.field_id ((sortStrings (b.fields.map Prod.fst)).get ⟨i, h⟩) = some i := by
    intro i h
    have hg := assocGet_buildIds _ hsnd 0 i h
    rw [Nat.zero_add] at hg
    exact hg
  have hname : ∀ i (h : i < (sortStrings (b.fields.map Prod.fst)).length),
      b.build.field_name i = some ((sortStrings (b.fields.map Prod.fst)).get ⟨i, h⟩) := by
    intro i h
    exact List.get?_eq_get h
  refine ⟨?_, ?_, ?_, ?_⟩
  · intro i hi
    exact ⟨_, hname i hi, hkey i hi⟩
  · intro name i hid
    obtain ⟨i', hi', hget, hj⟩ := assocGet_buildIds_inv _ 0 i name hid
    have : i = i' := by omega
    subst this
    exact ⟨hi', by rw [hname i hi', hget]⟩
  · intro name hmem
    have hmem' : name ∈ sortStrings (b.fields.map Prod.fst) :=
      ((sortStrings_perm (b.fields.map Prod.fst)).mem_iff).mpr hmem
    obtain ⟨⟨i, hi⟩, hget⟩ := List.mem_iff_get.mp hmem'
    refine ⟨i, ?_, ?_⟩
    · rw [← hget]; exact hkey i hi
    · rw [hname i hi, hget]
  · intro i j name hni hnj
    have hi : i < (sortStrings (b.fields.map Prod.fst)).length := by
      have := List.get?_eq_some.mp hni
      exact this.1
    have hj : j < (sortStrings (b.fields.map Prod.fst)).length := by
      have := List.get?_eq_some.mp hnj
      exact this.1
    have h₁ := hkey i hi
    have h₂ := hkey j hj
    have hgi : (sortStrings (b.fields.map Prod.fst)).get ⟨i, hi⟩ = name := by
      have := hname i hi
      rw [hni] at this
      exact (Option.some_injective _ this).symm
    have hgj : (sortStrings (b.fields.map Prod.fst)).get ⟨j, hj⟩ = name := by
      have := hname j hj
      rw [hnj] at this
      exact (Option.some_injective _ this).symm
    rw [hgi] at h₁
    rw [hgj] at h₂
    rw [h₁] at h₂
    exact (Option.some_injective _ h₂)

/-- Witness for C9 on a two-field builder: sorted names are `a`, `b`; id 0
maps to `a` and back, and the registered name `b` has an id. -/
theorem claim_c9_schema_bijection_witness :
    (∃ name, (FilterSchemaBuilder.new.field ("b") .int |>.field ("a") .bytes).build.field_name 0
        = some name ∧
      (FilterSchemaBuilder.new.field ("b") .int |>.field ("a") .bytes).build.field_id name
        = some 0) ∧
    (∃ i, (FilterSchemaBuilder.new.field ("b") .int |>.field ("a") .bytes).build.field_id ("b")
        = some i ∧
      (FilterSchemaBuilder.new.field ("b") .int |>.field ("a") .bytes).build.field_name i
        = some ("b")) :=
  ⟨(claim_c9_schema_bijection (FilterSchemaBuilder.new.field ("b") .int |>.field ("a") .bytes)
      (by decide)).1 0 (by decide),
   (claim_c9_schema_bijection (FilterSchemaBuilder.new.field ("b") .int |>.field ("a") .bytes)
      (by decide)).2.2.1 ("b") (by decide)⟩

/-!
Parser embedding (`FilterParser` in `src/expr.rs`).  The cursor is the pair
of the input character list and a position; the `&mut self` position is
threaded explicitly, also through failures (the Rust parser leaves `pos`
where a failing sub-parser advanced it, and callers that backtrack restore
a saved position).  `Err(_)` is `none`; the parser never consults the
schema, so the model omits it.  The mutually recursive productions take a
fuel argument: the Rust recursion terminates because each nesting level
consumes input, and on every concrete input a fuel larger than the nesting
depth makes the model agree with the source.
-/

/-- Mirror of `FilterParser::skip_whitespace`. -/
def skip_whitespace (input : List Char) (pos : Nat) : Nat :=
  pos + ((input.drop pos).takeWhile Char.isWhitespace).length

/-- Mirror of `FilterParser::peek`. -/
def peek (input : List Char) (pos : Nat) : Option Char :=
  (input.drop pos).head?

/-- Mirror of `FilterParser::consume`: prefix test plus advance. -/
def consumeStr (input : List Char) (pos : Nat) (s : List Char) : Bool × Nat :=
  if charsStartWith (input.drop pos) s then (true, pos + s.length) else (false, pos)

/-- Mirror of `FilterParser::parse_identifier`: skip whitespace, then take
the longest run of alphanumeric, `_` or `.` characters. -/
def parse_identifier (input : List Char) (pos : Nat) : Option String × Nat :=
  let p := skip_whitespace input pos
  let chars := (input.drop p).takeWhile (fun c => c.isAlphanum || c == '_' || c == '.')
  if chars.length > 0 then (some (String.mk chars), p + chars.length)
  else (none, p)

/-- The ordered operator table of `FilterParser::parse_operator`. -/
def operatorTable : List (List Char × ComparisonOp) :=
  [(("==").toList, .eq), (("eq").toList, .eq),
   (("!=").toList, .neq), (("ne").toList, .neq),
   (("<=").toList, .lte), (("le").toList, .lte),
   ((">=").toList, .gte), (("ge").toList, .gte),
   (("<").toList, .lt), (("lt").toList, .lt),
   ((">").toList, .gt), (("gt").toList, .gt),
   (("in").toList, .inOp), (("not in").toList, .notIn),
   (("matches").toList, .matches),
   (("wildcard").toList, .wildcard), (("strict wildcard").toList, .strictWildcard),
   (("contains").toList, .contains)]

/-- First prefix match in the operator table (the `for (s, op) in ops` loop
of `parse_operator`). -/
def findOperator (input : List Char) (pos : Nat) :
    List (List Char × ComparisonOp) → Option (ComparisonOp × Nat)
  | [] => none
  | (s, op) :: rest =>
    if charsStartWith (input.drop pos) s then some (op, pos + s.length)
    else findOperator input pos rest

/-- Mirror of `FilterParser::parse_operator`: skip whitespace, then return
the first table entry matching as a prefix, advancing past it; on failure
the position stays after the skipped whitespace. -/
def parse_operator (input : List Char) (pos : Nat) : Option ComparisonOp × Nat :=
  let p := skip_whitespace input pos
  match findOperator input p operatorTable with
  | some (op, newPos) => (some op, newPos)
  | none => (none, p)

/-- Mirror of `i64::from_str` on the grammar's integer literals: optional
leading minus already stripped, digit list, with the i64 range check. -/
def parseI64 (neg : Bool) (digits : List Char) : Option Int :=
  if digits.isEmpty then none
  else
    let mag : Nat := digits.foldl (fun acc c => acc * 10 + (c.toNat - ('0').toNat)) 0
    if neg then
      if mag ≤ 2 ^ 63 then some (-(mag : Int)) else none
    else
      if mag < 2 ^ 63 then some ((mag : Int)) else none

/-- Mirror of `FilterParser::parse_string_literal` (no escape processing;
unterminated string fails with the position at end of input). -/
def parse_string_literal (input : List Char) (pos : Nat) : Option LiteralValue × Nat :=
  let p := skip_whitespace input pos
  if peek input p == some '"' then
    let content := (input.drop (p + 1)).takeWhile (fun c => c != '"')
    let p₂ := p + 1 + content.length
    if peek input p₂ == some '"' then (some (.bytes (String.mk content)), p₂ + 1)
    else (none, p₂)
  else (none, p)

/-- Mirror of `FilterParser::parse_int_literal`. -/
def parse_int_literal (input : List Char) (pos : Nat) : Option LiteralValue × Nat :=
  let p := skip_whitespace input pos
  let startNeg := peek input p == some '-'
  let p₁ := if startNeg then p + 1 else p
  let digits := (input.drop p₁).takeWhile Char.isDigit
  let p₂ := p₁ + digits.length
  if p₂ > p then
    match parseI64 startNeg digits with
    | some n => (some (.int n), p₂)
    | none => (none, p₂)
  else (none, p₂)

/-- Mirror of `FilterParser::parse_literal`: string, integer, `true`, or
`false`. -/
def parse_literal (input : List Char) (pos : Nat) : Option LiteralValue × Nat :=
  let p := skip_whitespace input pos
  match peek input p with
  | some c =>
    if c == '"' then parse_string_literal input p
    else if c.isDigit || c == '-' then parse_int_literal input p
    else if charsStartWith (input.drop p) (("true").toList) then (some (.bool true), p + 4)
    else if charsStartWith (input.drop p) (("false").toList) then (some (.bool false), p + 5)
    else (none, p)
  | none => (none, p)

/-- Production selector for the recursive part of the parser.  The mutually
recursive Rust methods are modelled as one fuel-indexed function so that
concrete parses reduce inside the kernel; each constructor names the method
(or inner loop) of `FilterParser` it stands for, and the loop selectors
carry the accumulated left operand. -/
inductive PProd where
  | pExpr
  | pOr
  | pOrLoop (left : FilterExpr)
  | pAnd
  | pAndLoop (left : FilterExpr)
  | pNot
  | pComparison
  | pPrimary
  | pArgs
  | pExprOrValue
  | pListLit
  | pListItems

/-- Result payload of a parser production: an expression, an argument list,
or a literal list. -/
inductive PValue where
  | expr (e : FilterExpr)
  | exprList (es : List FilterExpr)
  | litList (vs : List LiteralValue)

/-- The recursive part of `FilterParser` (`parse_expr`, `parse_or`,
`parse_and`, `parse_not`, `parse_comparison` with its primary block and
argument loop, `parse_expr_or_value`, `parse_list_literal`), one branch per
production.  Failure is `none`; the position is threaded through failures
exactly as the Rust `&mut self.pos` is. -/
def parseGo (fuel : Nat) (prod : PProd) (input : List Char) (pos : Nat) :
    Option PValue × Nat :=
  match fuel with
  | 0 => (none, pos)
  | f + 1 =>
    match prod with
    | .pExpr => parseGo f .pOr input pos
    | .pOr =>
      let p := skip_whitespace input pos
      match parseGo f .pAnd input p with
      | (some (.expr left), p₁) => parseGo f (.pOrLoop left) input p₁
      | (_, p₁) => (none, p₁)
    | .pOrLoop left =>
      let p := skip_whitespace input pos
      let first := consumeStr input p (("||").toList)
      let second := if first.1 then first else consumeStr input p (("or").toList)
      if second.1 then
        let p₃ := skip_whitespace input second.2
        match parseGo f .pAnd input p₃ with
        | (some (.expr right), p₄) => parseGo f (.pOrLoop (.logicalOp .or left right)) input p₄
        | (_, p₄) => (none, p₄)
      else
        (some (.expr left), p)
    | .pAnd =>
      let p := skip_whitespace input pos
      match parseGo f .pNot input p with
      | (some (.expr left), p₁) => parseGo f (.pAndLoop left) input p₁
      | (_, p₁) => (none, p₁)
    | .pAndLoop left =>
      let p := skip_whitespace input pos
      let first := consumeStr input p (("&&").toList)
      let second := if first.1 then first else consumeStr input p (("and").toList)
      if second.1 then
        let p₃ := skip_whitespace input second.2
        match parseGo f .pNot input p₃ with
        | (some (.expr right), p₄) =>
          parseGo f (.pAndLoop (.logicalOp .and left right)) input p₄
        | (_, p₄) => (none, p₄)
      else
        (some (.expr left), p)
    | .pNot =>
      let p := skip_whitespace input pos
      let hit := consumeStr input p (("not").toList)
      if hit.1 then
        match parseGo f .pNot input hit.2 with
        | (some (.expr e), p₂) => (some (.expr (.not e)), p₂)
        | (_, p₂) => (none, p₂)
      else
        parseGo f .pComparison input p
    | .pComparison =>
      let p := skip_whitespace input pos
      match parseGo f .pPrimary input p with
      | (some (.expr left), p₁) =>
        let p₂ := skip_whitespace input p₁
        match parse_operator input p₂ with
        | (some op, p₃) =>
          let p₄ := skip_whitespace input p₃
          if peek input p₄ == some '{' then
            match parseGo f .pListLit input p₄ with
            | (some (.litList vs), p₅) =>
              let p₆ := skip_whitespace input p₅
              (some (.expr (.comparison left op (.value (.array vs)))), p₆)
            | (_, p₅) => (none, p₅)
          else
            match parseGo f .pExprOrValue input p₄ with
            | (some (.expr right), p₅) => (some (.expr (.comparison left op right)), p₅)
            | (_, p₅) => (none, p₅)
        | (none, p₃) => (some (.expr left), p₃)
      | (_, p₁) => (none, p₁)
    | .pPrimary =>
      if peek input pos == some '(' then
        match parseGo f .pExpr input (pos + 1) with
        | (some (.expr inner), p₁) =>
          let p₂ := skip_whitespace input p₁
          let hit := consumeStr input p₂ ((")").toList)
          if hit.1 then (some (.expr inner), hit.2) else (none, hit.2)
        | (_, p₁) => (none, p₁)
      else
        match parse_identifier input pos with
        | (none, p₁) => (none, p₁)
        | (some ident, p₁) =>
          let p₂ := skip_whitespace input p₁
          if peek input p₂ == some '(' then
            let p₃ := skip_whitespace input (p₂ + 1)
            if peek input p₃ == some ')' then
              (some (.expr (.functionCall ident [])), p₃ + 1)
            else
              match parseGo f .pArgs input p₃ with
              | (some (.exprList args), p₄) =>
                let hit := consumeStr input p₄ ((")").toList)
                if hit.1 then (some (.expr (.functionCall ident args)), hit.2)
                else (none, hit.2)
              | (_, p₄) => (none, p₄)
          else if ident == ("\x7b") then
            match parseGo f .pListLit input p₂ with
            | (some (.litList vs), p₃) => (some (.expr (.list vs)), p₃)
            | (_, p₃) => (none, p₃)
          else
            (some (.expr (.value (.bytes ident))), p₂)
    | .pArgs =>
      let argRes :=
        match parse_identifier input pos with
        | (some ident, p') => ((some (FilterExpr.value (.bytes ident)) : Option FilterExpr), p')
        | (none, _) =>
          match parseGo f .pExprOrValue input pos with
          | (some (.expr e), p') => (some e, p')
          | (_, p') => (none, p')
      match argRes with
      | (none, p₁) => (none, p₁)
      | (some arg, p₁) =>
        let p₂ := skip_whitespace input p₁
        if peek input p₂ == some ',' then
          let p₃ := skip_whitespace input (p₂ + 1)
          match parseGo f .pArgs input p₃ with
          | (some (.exprList rest), p₄) => (some (.exprList (arg :: rest)), p₄)
          | (_, p₄) => (none, p₄)
        else
          (some (.exprList [arg]), p₂)
    | .pExprOrValue =>
      let p := skip_whitespace input pos
      match parse_literal input p with
      | (some lit, p₁) => (some (.expr (.value lit)), p₁)
      | (none, _) =>
        match parse_identifier input p with
        | (some ident, p₁) => (some (.expr (.value (.bytes ident))), p₁)
        | (none, _) => parseGo f .pExpr input p
    | .pListLit =>
      let hit := consumeStr input pos (("\x7b").toList)
      if hit.1 then parseGo f .pListItems input hit.2
      else (none, hit.2)
    | .pListItems =>
      let p := skip_whitespace input pos
      if peek input p == some '}' then (some (.litList []), p + 1)
      else
        match parse_literal input p with
        | (some item, p₁) =>
          let p₂ := skip_whitespace input p₁
          match parseGo f .pListItems input p₂ with
          | (some (.litList rest), p₃) => (some (.litList (item :: rest)), p₃)
          | (_, p₃) => (none, p₃)
        | (none, p₁) => (none, p₁)

/-- Mirror of `FilterParser::parse_expr` as a projection of `parseGo`. -/
def parse_expr (fuel : Nat) (input : List Char) (pos : Nat) : Option FilterExpr × Nat :=
  match parseGo fuel .pExpr input pos with
  | (some (.expr e), p) => (some e, p)
  | (_, p) => (none, p)

/-- Mirror of `FilterParser::parse` (the public entry point): parse a full
expression and require only whitespace to remain. -/
def FilterParser.parse (fuel : Nat) (input : String) : Option FilterExpr :=
  match parse_expr fuel input.toList 0 with
  | (some e, p) =>
    let p₁ := skip_whitespace input.toList p
    if p₁ < input.toList.length then none else some e
  | (none, _) => none

/-- C7: operator tokenization follows longest match at an operator
position: `not in` is recognized as `NotIn` (not stopped at `in`),
`strict wildcard` as `StrictWildcard` (not `Wildcard`), and `<=`, `>=`,
`==`, `!=` as `Lte`, `Gte`, `Eq`, `Neq` rather than the shorter `<`, `>`,
`eq`, `ne` tokens — each consuming the full token, for every continuation
of the input. -/
theorem claim_c7_operator_longest_match :
    (∀ rest, parse_operator (("not in").toList ++ rest) 0 = (some .notIn, 6)) ∧
    (∀ rest, parse_operator (("strict wildcard").toList ++ rest) 0 =
      (some .strictWildcard, 15)) ∧
    (∀ rest, parse_operator (("<=").toList ++ rest) 0 = (some .lte, 2)) ∧
    (∀ rest, parse_operator ((">=").toList ++ rest) 0 = (some .gte, 2)) ∧
    (∀ rest, parse_operator (("==").toList ++ rest) 0 = (some .eq, 2)) ∧
    (∀ rest, parse_operator (("!=").toList ++ rest) 0 = (some .neq, 2)) :=
  ⟨fun _ => rfl, fun _ => rfl, fun _ => rfl, fun _ => rfl, fun _ => rfl, fun _ => rfl⟩

/-- The registry of the short-circuit scenario: a single registered
function `always_true` returning `Bool(true)` (id 0); `missing_fn` is not
registered. -/
def c1Reg : FunctionRegistry :=
  FunctionRegistry.new.register ("always_true") (fun _ => some (.bool true))

/-- The expression tree the parser produces for
`always_true() || missing_fn()`. -/
def c1Expr : FilterExpr :=
  .logicalOp .or (.functionCall ("always_true") []) (.functionCall ("missing_fn") [])

/-- C1 (behavior of the code at the claimed scenario): parsing
`always_true() || missing_fn()` and compiling against the registry holding
only `always_true` emits both calls before `LogicalOr` — the sentinel call
included — so executing against any context returns the function-not-found
`FunctionError` instead of the `Ok(true)` the specification requires. -/
theorem claim_c1_or_short_circuit (ctx : FilterContext) (schema : FilterSchema) :
    FilterParser.parse 100 ("always_true() || missing_fn()") = some c1Expr ∧
    (DefaultCompiler.compile c1Expr schema c1Reg).bytecode =
      [.callFunction 0 0, .callFunction USIZE_MAX 0, .logicalOr] ∧
    (DefaultCompiler.compile c1Expr schema c1Reg).execute ctx =
      .err (.functionError (("Function ID ") ++ Nat.repr USIZE_MAX ++ (" not found"))) ∧
    (∀ b, (DefaultCompiler.compile c1Expr schema c1Reg).execute ctx ≠ .ok b) := by
  refine ⟨rfl, rfl, rfl, ?_⟩
  intro b h
  have h₂ : ExecResult.err
      (.functionError (("Function ID ") ++ Nat.repr USIZE_MAX ++ (" not found"))) =
      .ok b := h
  exact ExecResult.noConfusion h₂

end Wirerust
